import Mathlib

/-!
Shallow embedding of the request-routing layer of rust-hyper-notcgi
(src/handlers/route.rs), together with theorems about route-table
construction and dispatch.

Paths (`PathBuf` / `OsStr` on Unix) are modelled as lists of byte values,
because `PathBuf::to_str` can fail on non-UTF-8 bytes and route matching is
byte-for-byte.  HTTP methods are modelled as strings (the exact verb token,
as `hyper::Method` compares them).  Handlers are functions from requests to
responses, mirroring the `RequestHandler` trait object.
-/

namespace RustHyperNotcgi

/-- Byte strings: the contents of a Unix `OsStr` or a `str`, as a list of
byte values.  Only equality, concatenation and UTF-8 validity matter to the
router, so bytes are plain naturals. -/
abbrev Bytes := List Nat

/-- Model of `Path::is_absolute` on Unix: the path begins with the separator
byte `/` (47). -/
def isAbsolute (p : Bytes) : Bool :=
  match p with
  | [] => false
  | b :: _ => b == 47

/-- Model of the separator test inside `PathBuf::push` on Unix: a separator
must be inserted when the base buffer is nonempty and does not already end
with `/`. -/
def needSep (base : Bytes) : Bool :=
  match base.getLast? with
  | none => false
  | some b => !(b == 47)

/-- Model of `PathBuf::from(base).join(p)` on Unix, as used in `Router::new`:
an absolute `p` replaces the whole buffer; otherwise `p` is appended, with a
single `/` inserted when the base is nonempty and does not end with `/`. -/
def pathJoin (base p : Bytes) : Bytes :=
  if isAbsolute p then p
  else if needSep base then base ++ 47 :: p
  else base ++ p

/-- A UTF-8 continuation byte: `0x80 ≤ b ≤ 0xBF`. -/
def isCont (b : Nat) : Bool := decide (0x80 ≤ b ∧ b ≤ 0xBF)

/-- Model of the UTF-8 validity check performed by `Path::to_str`
(`str::from_utf8`): accepts exactly well-formed UTF-8, rejecting overlong
encodings, surrogates and code points above `U+10FFFF`. -/
def isValidUtf8 : Bytes → Bool
  | [] => true
  | b :: rest =>
    if b ≤ 0x7F then isValidUtf8 rest
    else if 0xC2 ≤ b ∧ b ≤ 0xDF then
      match rest with
      | b1 :: rest2 => isCont b1 && isValidUtf8 rest2
      | [] => false
    else if b = 0xE0 then
      match rest with
      | b1 :: b2 :: rest3 =>
        decide (0xA0 ≤ b1 ∧ b1 ≤ 0xBF) && isCont b2 && isValidUtf8 rest3
      | _ => false
    else if (0xE1 ≤ b ∧ b ≤ 0xEC) ∨ b = 0xEE ∨ b = 0xEF then
      match rest with
      | b1 :: b2 :: rest3 => isCont b1 && isCont b2 && isValidUtf8 rest3
      | _ => false
    else if b = 0xED then
      match rest with
      | b1 :: b2 :: rest3 =>
        decide (0x80 ≤ b1 ∧ b1 ≤ 0x9F) && isCont b2 && isValidUtf8 rest3
      | _ => false
    else if b = 0xF0 then
      match rest with
      | b1 :: b2 :: b3 :: rest4 =>
        decide (0x90 ≤ b1 ∧ b1 ≤ 0xBF) && isCont b2 && isCont b3 && isValidUtf8 rest4
      | _ => false
    else if 0xF1 ≤ b ∧ b ≤ 0xF3 then
      match rest with
      | b1 :: b2 :: b3 :: rest4 =>
        isCont b1 && isCont b2 && isCont b3 && isValidUtf8 rest4
      | _ => false
    else if b = 0xF4 then
      match rest with
      | b1 :: b2 :: b3 :: rest4 =>
        decide (0x80 ≤ b1 ∧ b1 ≤ 0x8F) && isCont b2 && isCont b3 && isValidUtf8 rest4
      | _ => false
    else false

/-- Convenience for writing concrete ASCII paths and methods as byte lists. -/
def asciiBytes (s : String) : Bytes := s.data.map Char.toNat

/-- Modelled from the spec: the inbound request type `crate::request::HttpRequest`
(its definition is outside the visible sources).  The router reads only the
method and the URI path; the remaining request data (ids, headers, version,
body) is opaque to the router but visible to handlers, abstracted here by the
`connectionId` and `requestId` fields the visible handlers read. -/
structure HttpRequest where
  method : String
  uriPath : Bytes
  connectionId : Nat
  requestId : Nat
deriving DecidableEq

/-- Model of `Cow<'a, str>`: a borrowed or owned string.  Equality and
hashing in Rust go through `Deref`, i.e. depend only on the content. -/
inductive Cow where
  | borrowed : Bytes → Cow
  | owned : Bytes → Cow
deriving DecidableEq

/-- The string content a `Cow` dereferences to. -/
def Cow.content : Cow → Bytes
  | borrowed s => s
  | owned s => s

/-- Model of `RouteKey`: the (method, absolute path) lookup identity. -/
structure RouteKey where
  method : String
  path : Cow
deriving DecidableEq

/-- Model of the derived `PartialEq`/`Eq` on `RouteKey`: methods compare as
exact verb tokens, and `Cow<str>` compares by dereferenced content, so two
keys are `==` exactly when the methods are identical and the path strings
are byte-equal, regardless of the `Cow` variant. -/
def RouteKey.beq (a b : RouteKey) : Bool :=
  a.method == b.method && a.path.content == b.path.content

/-- One step of a model hasher: fold a byte into the 64-bit state. -/
def hashByte (h b : Nat) : Nat := (h * 31 + b + 1) % 2 ^ 64

/-- Fold a byte string into the hasher state. -/
def hashBytesFrom (h : Nat) (bs : Bytes) : Nat := bs.foldl hashByte h

/-- The bytes of a method token, as fed to the hasher. -/
def methodBytes (m : String) : Bytes := m.data.map Char.toNat

/-- Model of the derived `Hash` on `RouteKey`: the hasher consumes the method
token and then the dereferenced path content (with the length terminator
`str`'s `Hash` impl writes), so the hash depends only on the method and the
path bytes, never on the `Cow` variant or allocation. -/
def RouteKey.hashModel (k : RouteKey) : Nat :=
  hashBytesFrom (hashBytesFrom 5381 (methodBytes k.method)) (k.path.content ++ [0xFF])

/-- Model of the `From<&HttpRequest> for RouteKey` impl: borrow the request's
method and URI path. -/
def RouteKey.fromRequest (r : HttpRequest) : RouteKey :=
  { method := r.method, path := Cow.borrowed r.uriPath }

/-- An HTTP response: a status code and a body.  `hyper::Response` carries
more, but the router only ever builds a status-code response or passes a
handler's response through unchanged. -/
structure Response where
  status : Nat
  body : Bytes
deriving DecidableEq

/-- Model of the `RequestHandler` trait object: a total function from
requests to responses (`handle(&self, request) → Response`). -/
abbrev RequestHandler := HttpRequest → Response

/-- Modelled from the spec: `build_status_code_response` lives in
`src/handlers/utils.rs`, which is outside the visible sources; the spec
mandates a synthesized response with the given status code and no body
semantics beyond it. -/
def build_status_code_response (status : Nat) : Response :=
  { status := status, body := [] }

/-- Model of `RouteInfo`: one (method, path suffix, handler) registration. -/
structure RouteInfo where
  method : String
  path_suffix : Bytes
  handler : RequestHandler

/-- The construction-time errors of `Router::new`.  The source uses `anyhow`
message strings; the model keeps the same information structurally: the
offending path bytes for a `to_str` failure, the offending key for a
collision. -/
inductive RouterError where
  | pathEncoding : Bytes → RouterError
  | collision : RouteKey → RouterError
deriving DecidableEq

/-- The route table: `HashMap<RouteKey, Box<dyn RequestHandler>>`, modelled
as an association list with `RouteKey` equality (`RouteKey.beq`). -/
abbrev RouteTable := List (RouteKey × RequestHandler)

/-- Model of `HashMap::insert`: if an equal key is present, replace its value
and return the previous value; otherwise append the new binding and return
none. -/
def tableInsert (t : RouteTable) (k : RouteKey) (v : RequestHandler) :
    RouteTable × Option RequestHandler :=
  match t with
  | [] => ([(k, v)], none)
  | (k0, v0) :: rest =>
    if RouteKey.beq k0 k then ((k0, v) :: rest, some v0)
    else
      let r := tableInsert rest k v
      ((k0, v0) :: r.1, r.2)

/-- Model of `HashMap::get`: the value bound to the first key equal to `k`. -/
def tableGet (t : RouteTable) (k : RouteKey) : Option RequestHandler :=
  match t with
  | [] => none
  | (k0, v0) :: rest => if RouteKey.beq k0 k then some v0 else tableGet rest k

/-- Model of `Router`: the built route table. -/
structure Router where
  route_key_to_handler : RouteTable

/-- The registration loop of `Router::new`: for each registration, join the
context with the path suffix, fail with a path-encoding error if the joined
path is not valid UTF-8, otherwise form the key and insert; fail with a
collision error if the insert displaced an existing binding. -/
def Router.newLoop (ctx : Bytes) (routes : List RouteInfo) (table : RouteTable) :
    Except RouterError Router :=
  match routes with
  | [] => .ok { route_key_to_handler := table }
  | route :: rest =>
    let uri_pathbuf := pathJoin ctx route.path_suffix
    if isValidUtf8 uri_pathbuf then
      let key : RouteKey := { method := route.method, path := Cow.owned uri_pathbuf }
      let ins := tableInsert table key route.handler
      if ins.2.isSome then
        .error (.collision key)
      else
        Router.newLoop ctx rest ins.1
    else
      .error (.pathEncoding uri_pathbuf)

/-- Model of `Router::new`.  The context string comes from process
configuration (`crate::config`, outside the visible sources); per the spec it
is reframed as an explicit parameter, consumed as an opaque string. -/
def Router.new (ctx : Bytes) (routes : List RouteInfo) : Except RouterError Router :=
  Router.newLoop ctx routes []

/-- Model of the `RequestHandler` impl for `Router`: look the request's key
up in the table; delegate to the bound handler, or synthesize a 404
(`StatusCode::NOT_FOUND`) response when there is no binding. -/
def Router.handle (r : Router) (request : HttpRequest) : Response :=
  match tableGet r.route_key_to_handler (RouteKey.fromRequest request) with
  | none => build_status_code_response 404
  | some handler => handler request

/-- The Route Key a registration composes to: the registration's method with
the context-joined absolute path, as formed inside `Router::new`. -/
def composedKey (ctx : Bytes) (route : RouteInfo) : RouteKey :=
  { method := route.method, path := Cow.owned (pathJoin ctx route.path_suffix) }

/-- The table binding a registration produces. -/
def composedEntry (ctx : Bytes) (route : RouteInfo) : RouteKey × RequestHandler :=
  (composedKey ctx route, route.handler)

/-- A list of keys is collision-free when no two of them are `==`. -/
def KeysDistinct (ks : List RouteKey) : Prop :=
  List.Pairwise (fun a b => RouteKey.beq a b = false) ks

instance decidableKeysDistinct : (ks : List RouteKey) → Decidable (KeysDistinct ks)
  | [] => isTrue List.Pairwise.nil
  | k :: ks =>
    match List.decidableBAll (fun b => RouteKey.beq k b = false) ks,
        decidableKeysDistinct ks with
    | isTrue h1, isTrue h2 => isTrue (List.Pairwise.cons h1 h2)
    | isFalse h1, _ => isFalse fun hp => h1 (List.pairwise_cons.mp hp).1
    | _, isFalse h2 => isFalse fun hp => h2 (List.pairwise_cons.mp hp).2

/-! ## Basic lemmas about key equality and the table operations -/

theorem RouteKey.beq_iff (a b : RouteKey) :
    RouteKey.beq a b = true ↔ a.method = b.method ∧ a.path.content = b.path.content := by
  simp [RouteKey.beq]

theorem RouteKey.beq_refl (a : RouteKey) : RouteKey.beq a a = true := by
  simp [RouteKey.beq]

theorem RouteKey.beq_of_beq_beq {a b k : RouteKey} (hak : RouteKey.beq a k = true)
    (hbk : RouteKey.beq b k = true) : RouteKey.beq a b = true := by
  rw [RouteKey.beq_iff] at hak hbk ⊢
  exact ⟨hak.1.trans hbk.1.symm, hak.2.trans hbk.2.symm⟩

theorem tableInsert_of_notfound (t : RouteTable) (k : RouteKey) (v : RequestHandler)
    (h : ∀ p ∈ t, RouteKey.beq p.1 k = false) :
    tableInsert t k v = (t ++ [(k, v)], none) := by
  induction t with
  | nil => rfl
  | cons hd tl ih =>
    have hhd : RouteKey.beq hd.1 k = false := h hd (List.mem_cons_self hd tl)
    have htl : ∀ p ∈ tl, RouteKey.beq p.1 k = false :=
      fun p hp => h p (List.mem_cons_of_mem hd hp)
    simp [tableInsert, hhd, ih htl]

theorem tableInsert_isSome_of_found (t : RouteTable) (k : RouteKey) (v : RequestHandler)
    (p : RouteKey × RequestHandler) (hp : p ∈ t) (hbeq : RouteKey.beq p.1 k = true) :
    (tableInsert t k v).2.isSome = true := by
  induction t with
  | nil => simp at hp
  | cons hd tl ih =>
    by_cases hhd : RouteKey.beq hd.1 k = true
    · simp [tableInsert, hhd]
    · rcases List.mem_cons.mp hp with hph | hptl
      · exact absurd (hph ▸ hbeq) hhd
      · simp only [Bool.not_eq_true] at hhd
        simpa [tableInsert, hhd] using ih hptl

theorem tableInsert_none_notfound (t : RouteTable) (k : RouteKey) (v : RequestHandler)
    (h : (tableInsert t k v).2 = none) :
    ∀ p ∈ t, RouteKey.beq p.1 k = false := by
  intro p hp
  by_contra hne
  have hbeq : RouteKey.beq p.1 k = true := by simpa using hne
  have hs := tableInsert_isSome_of_found t k v p hp hbeq
  rw [h] at hs
  simp at hs

theorem tableGet_eq_none (t : RouteTable) (k : RouteKey)
    (h : ∀ p ∈ t, RouteKey.beq p.1 k = false) : tableGet t k = none := by
  induction t with
  | nil => rfl
  | cons hd tl ih =>
    have hhd : RouteKey.beq hd.1 k = false := h hd (List.mem_cons_self hd tl)
    have htl : ∀ p ∈ tl, RouteKey.beq p.1 k = false :=
      fun p hp => h p (List.mem_cons_of_mem hd hp)
    simp [tableGet, hhd, ih htl]

theorem tableGet_some_mem (t : RouteTable) (k : RouteKey) (v : RequestHandler)
    (h : tableGet t k = some v) :
    ∃ k0, (k0, v) ∈ t ∧ RouteKey.beq k0 k = true := by
  induction t with
  | nil => simp [tableGet] at h
  | cons hd tl ih =>
    by_cases hhd : RouteKey.beq hd.1 k = true
    · have h2 : hd.2 = v := by simpa [tableGet, hhd] using h
      refine ⟨hd.1, ?_, hhd⟩
      rw [← h2, Prod.mk.eta]
      exact List.mem_cons_self hd tl
    · simp only [Bool.not_eq_true] at hhd
      simp only [tableGet, hhd] at h
      obtain ⟨k0, hk0, hbeq⟩ := ih (by simpa using h)
      exact ⟨k0, List.mem_cons_of_mem hd hk0, hbeq⟩

theorem tableGet_of_mem_distinct (t : RouteTable) (k k0 : RouteKey) (v : RequestHandler)
    (hd : KeysDistinct (t.map Prod.fst)) (hmem : (k0, v) ∈ t)
    (hbeq : RouteKey.beq k0 k = true) : tableGet t k = some v := by
  induction t with
  | nil => simp at hmem
  | cons hd1 tl ih =>
    rw [List.map_cons] at hd
    rw [KeysDistinct, List.pairwise_cons] at hd
    rcases List.mem_cons.mp hmem with hph | hptl
    · have hkk : RouteKey.beq hd1.1 k = true := by rw [← hph]; exact hbeq
      simp only [tableGet, hkk, if_pos]
      rw [← hph]
    · have hne : RouteKey.beq hd1.1 k = false := by
        by_contra hc
        have hc' : RouteKey.beq hd1.1 k = true := by simpa using hc
        have : RouteKey.beq hd1.1 k0 = true := RouteKey.beq_of_beq_beq hc' hbeq
        have hf : RouteKey.beq hd1.1 k0 = false :=
          hd.1 k0 (List.mem_map.mpr ⟨(k0, v), hptl, rfl⟩)
        rw [hf] at this
        exact Bool.false_ne_true this
      simp only [tableGet, hne]
      exact ih hd.2 hptl

/-! ## Lemmas about the registration loop of Router::new -/

theorem newLoop_cons (ctx : Bytes) (route : RouteInfo) (rest : List RouteInfo)
    (table : RouteTable) :
    Router.newLoop ctx (route :: rest) table =
      if isValidUtf8 (pathJoin ctx route.path_suffix) then
        if (tableInsert table (composedKey ctx route) route.handler).2.isSome then
          Except.error (RouterError.collision (composedKey ctx route))
        else
          Router.newLoop ctx rest (tableInsert table (composedKey ctx route) route.handler).1
      else Except.error (RouterError.pathEncoding (pathJoin ctx route.path_suffix)) := rfl

theorem newLoop_ok (ctx : Bytes) (routes : List RouteInfo) :
    ∀ (table : RouteTable) (r : Router),
      Router.newLoop ctx routes table = .ok r →
      (∀ route ∈ routes, isValidUtf8 (pathJoin ctx route.path_suffix) = true)
      ∧ r.route_key_to_handler = table ++ routes.map (composedEntry ctx)
      ∧ (KeysDistinct (table.map Prod.fst) →
          KeysDistinct (r.route_key_to_handler.map Prod.fst)) := by
  induction routes with
  | nil =>
    intro table r h
    simp only [Router.newLoop, Except.ok.injEq] at h
    subst h
    exact ⟨by simp, by simp, fun hd => hd⟩
  | cons route rest ih =>
    intro table r h
    rw [newLoop_cons] at h
    by_cases hv : isValidUtf8 (pathJoin ctx route.path_suffix) = true
    · rw [if_pos hv] at h
      by_cases hfound : ∀ p ∈ table, RouteKey.beq p.1 (composedKey ctx route) = false
      · have hfst := tableInsert_of_notfound table (composedKey ctx route) route.handler hfound
        rw [hfst] at h
        simp only [Option.isSome_none, Bool.false_eq_true, if_false] at h
        obtain ⟨ihv, iheq, ihdist⟩ :=
          ih (table ++ [(composedKey ctx route, route.handler)]) r h
        refine ⟨?_, ?_, ?_⟩
        · intro rt hrt
          rcases List.mem_cons.mp hrt with hh | ht
          · rw [hh]; exact hv
          · exact ihv rt ht
        · rw [iheq]; simp [composedEntry]
        · intro hd
          apply ihdist
          rw [List.map_append, KeysDistinct, List.pairwise_append]
          refine ⟨hd, by simp, ?_⟩
          intro a ha b hb
          have hb' : b = composedKey ctx route := by simpa using hb
          obtain ⟨p, hp, hpa⟩ := List.mem_map.mp ha
          rw [hb', ← hpa]
          exact hfound p hp
      · obtain ⟨p, hp, hpbeq⟩ := by push_neg at hfound; exact hfound
        have hpbeq' : RouteKey.beq p.1 (composedKey ctx route) = true := by
          simpa using hpbeq
        have hs := tableInsert_isSome_of_found table (composedKey ctx route) route.handler
          p hp hpbeq'
        rw [if_pos hs] at h
        exact Except.noConfusion h
    · rw [if_neg hv] at h
      exact Except.noConfusion h

theorem newLoop_success (ctx : Bytes) (routes : List RouteInfo) :
    ∀ (table : RouteTable),
      (∀ route ∈ routes, isValidUtf8 (pathJoin ctx route.path_suffix) = true) →
      KeysDistinct (table.map Prod.fst ++ routes.map (composedKey ctx)) →
      Router.newLoop ctx routes table =
        .ok { route_key_to_handler := table ++ routes.map (composedEntry ctx) } := by
  induction routes with
  | nil =>
    intro table _ _
    simp [Router.newLoop]
  | cons route rest ih =>
    intro table hvalid hdist
    rw [newLoop_cons]
    have hv := hvalid route (List.mem_cons_self route rest)
    rw [if_pos hv]
    rw [List.map_cons, KeysDistinct, List.pairwise_append] at hdist
    have hnf : ∀ p ∈ table, RouteKey.beq p.1 (composedKey ctx route) = false := by
      intro p hp
      exact hdist.2.2 p.1 (List.mem_map.mpr ⟨p, hp, rfl⟩) (composedKey ctx route)
        (List.mem_cons_self _ _)
    have hfst := tableInsert_of_notfound table (composedKey ctx route) route.handler hnf
    rw [hfst]
    simp only [Option.isSome_none, Bool.false_eq_true, if_false]
    have hdist' : KeysDistinct
        ((table ++ [(composedKey ctx route, route.handler)]).map Prod.fst
          ++ rest.map (composedKey ctx)) := by
      rw [List.map_append, List.append_assoc]
      rw [KeysDistinct, List.pairwise_append]
      refine ⟨hdist.1, ?_, ?_⟩
      · simp only [List.map_cons, List.map_nil, List.singleton_append]
        rw [List.pairwise_cons]
        constructor
        · intro b hb
          exact (List.pairwise_cons.mp hdist.2.1).1 b hb
        · exact (List.pairwise_cons.mp hdist.2.1).2
      · intro a ha b hb
        simp only [List.map_cons, List.map_nil, List.singleton_append] at hb
        exact hdist.2.2 a ha b hb
    have := ih (table ++ [(composedKey ctx route, route.handler)])
      (fun rt hrt => hvalid rt (List.mem_cons_of_mem route hrt)) hdist'
    rw [this]
    simp [composedEntry]

theorem newLoop_dup (ctx : Bytes) (routes : List RouteInfo) :
    ∀ (table : RouteTable),
      (∀ route ∈ routes, isValidUtf8 (pathJoin ctx route.path_suffix) = true) →
      KeysDistinct (table.map Prod.fst) →
      ¬ KeysDistinct (table.map Prod.fst ++ routes.map (composedKey ctx)) →
      ∃ k, Router.newLoop ctx routes table = .error (.collision k)
        ∧ 2 ≤ (table.map Prod.fst ++ routes.map (composedKey ctx)).countP
              (fun a => RouteKey.beq a k) := by
  induction routes with
  | nil =>
    intro table _ hdist hnot
    apply absurd hdist
    simpa using hnot
  | cons route rest ih =>
    intro table hvalid hdist hnot
    rw [newLoop_cons]
    have hv := hvalid route (List.mem_cons_self route rest)
    rw [if_pos hv]
    by_cases hfound : ∀ p ∈ table, RouteKey.beq p.1 (composedKey ctx route) = false
    · have hfst := tableInsert_of_notfound table (composedKey ctx route) route.handler hfound
      rw [hfst]
      simp only [Option.isSome_none, Bool.false_eq_true, if_false]
      have hlist : (table ++ [(composedKey ctx route, route.handler)]).map Prod.fst
          ++ rest.map (composedKey ctx)
          = table.map Prod.fst ++ (route :: rest).map (composedKey ctx) := by
        simp
      have hdist' : KeysDistinct
          ((table ++ [(composedKey ctx route, route.handler)]).map Prod.fst) := by
        rw [List.map_append, KeysDistinct, List.pairwise_append]
        refine ⟨hdist, by simp, ?_⟩
        intro a ha b hb
        have hb' : b = composedKey ctx route := by simpa using hb
        obtain ⟨p, hp, hpa⟩ := List.mem_map.mp ha
        rw [hb', ← hpa]
        exact hfound p hp
      obtain ⟨k, hk, hcount⟩ := ih (table ++ [(composedKey ctx route, route.handler)])
        (fun rt hrt => hvalid rt (List.mem_cons_of_mem route hrt)) hdist'
        (by rw [hlist]; exact hnot)
      refine ⟨k, hk, ?_⟩
      rw [← hlist]
      exact hcount
    · obtain ⟨p, hp, hpbeq⟩ := by push_neg at hfound; exact hfound
      have hpbeq' : RouteKey.beq p.1 (composedKey ctx route) = true := by
        simpa using hpbeq
      have hs := tableInsert_isSome_of_found table (composedKey ctx route) route.handler
        p hp hpbeq'
      rw [if_pos hs]
      refine ⟨composedKey ctx route, rfl, ?_⟩
      rw [List.countP_append]
      have h1 : 0 < (table.map Prod.fst).countP
          (fun a => RouteKey.beq a (composedKey ctx route)) := by
        rw [List.countP_pos_iff]
        exact ⟨p.1, List.mem_map.mpr ⟨p, hp, rfl⟩, hpbeq'⟩
      have h2 : 0 < ((route :: rest).map (composedKey ctx)).countP
          (fun a => RouteKey.beq a (composedKey ctx route)) := by
        rw [List.countP_pos_iff]
        exact ⟨composedKey ctx route, by simp, RouteKey.beq_refl _⟩
      omega

/-! ## Claim theorems -/

/-- A concrete handler used for witnesses: it returns a fixed 200 response. -/
def okHandler : RequestHandler := fun _ => { status := 200, body := [] }

/-- C1: for every list of route registrations (whose composed paths are valid
text, so that each registration composes to a Route Key at all), if two
registrations compose to an identical Route Key then Router::new returns a
collision error identifying a duplicated key, and if all registrations
compose to pairwise-distinct Route Keys then Router::new succeeds. -/
theorem c1_registry_uniqueness (ctx : Bytes) (routes : List RouteInfo)
    (hvalid : ∀ route ∈ routes, isValidUtf8 (pathJoin ctx route.path_suffix) = true) :
    (¬ KeysDistinct (routes.map (composedKey ctx)) →
      ∃ k, Router.new ctx routes = .error (.collision k)
        ∧ 2 ≤ (routes.map (composedKey ctx)).countP (fun a => RouteKey.beq a k))
    ∧ (KeysDistinct (routes.map (composedKey ctx)) →
      ∃ r, Router.new ctx routes = .ok r) := by
  constructor
  · intro hnot
    obtain ⟨k, hk, hc⟩ := newLoop_dup ctx routes [] hvalid (by simp [KeysDistinct])
      (by simpa using hnot)
    exact ⟨k, hk, by simpa using hc⟩
  · intro hdist
    exact ⟨_, newLoop_success ctx routes [] hvalid (by simpa using hdist)⟩

/-- Witness for C1: two registrations of GET "x" under context "/a" collide,
and the duplicated key is identified in the error. -/
theorem c1_registry_uniqueness_witness :
    ∃ k, Router.new (asciiBytes "/a")
        [⟨"GET", asciiBytes "x", okHandler⟩, ⟨"GET", asciiBytes "x", okHandler⟩]
      = .error (.collision k)
      ∧ 2 ≤ (([⟨"GET", asciiBytes "x", okHandler⟩, ⟨"GET", asciiBytes "x", okHandler⟩]
            : List RouteInfo).map (composedKey (asciiBytes "/a"))).countP
          (fun a => RouteKey.beq a k) :=
  (c1_registry_uniqueness (asciiBytes "/a")
    [⟨"GET", asciiBytes "x", okHandler⟩, ⟨"GET", asciiBytes "x", okHandler⟩]
    (by decide)).1 (by decide)

/-- C2: for every constructed Router and every request, an entry whose key
equals the request's method and URI path byte-for-byte has its handler's
response returned unmodified, and if no entry's key equals the request's key
the response has status 404. -/
theorem c2_dispatch_exact_match (ctx : Bytes) (routes : List RouteInfo) (r : Router)
    (hok : Router.new ctx routes = .ok r) (req : HttpRequest) :
    (∀ kh ∈ r.route_key_to_handler,
        RouteKey.beq kh.1 (RouteKey.fromRequest req) = true → r.handle req = kh.2 req)
    ∧ ((∀ kh ∈ r.route_key_to_handler,
        RouteKey.beq kh.1 (RouteKey.fromRequest req) = false) →
        (r.handle req).status = 404) := by
  have hdist : KeysDistinct (r.route_key_to_handler.map Prod.fst) :=
    (newLoop_ok ctx routes [] r hok).2.2 (by simp [KeysDistinct])
  constructor
  · intro kh hmem hbeq
    have hget : tableGet r.route_key_to_handler (RouteKey.fromRequest req) = some kh.2 :=
      tableGet_of_mem_distinct _ _ kh.1 kh.2 hdist (by rw [Prod.mk.eta]; exact hmem) hbeq
    simp only [Router.handle, hget]
  · intro hnone
    have hget : tableGet r.route_key_to_handler (RouteKey.fromRequest req) = none :=
      tableGet_eq_none _ _ hnone
    simp only [Router.handle, hget]
    rfl

/-- Witness for C2: a router built from GET "x" under context "/a" dispatches
GET "/a/x" to the registered handler. -/
theorem c2_dispatch_exact_match_witness :
    Router.handle
      { route_key_to_handler := [(⟨"GET", Cow.owned (asciiBytes "/a/x")⟩, okHandler)] }
      ⟨"GET", asciiBytes "/a/x", 0, 0⟩
    = okHandler ⟨"GET", asciiBytes "/a/x", 0, 0⟩ :=
  (c2_dispatch_exact_match (asciiBytes "/a") [⟨"GET", asciiBytes "x", okHandler⟩]
    { route_key_to_handler := [(⟨"GET", Cow.owned (asciiBytes "/a/x")⟩, okHandler)] }
    rfl ⟨"GET", asciiBytes "/a/x", 0, 0⟩).1
    (⟨"GET", Cow.owned (asciiBytes "/a/x")⟩, okHandler)
    (List.mem_singleton.mpr rfl) (by decide)

/-- C4: two Route Keys are equal iff their methods are identical and their
path strings are byte-equal, regardless of the Cow variant (owned or
borrowed), and equal keys produce equal hash values. -/
theorem c4_key_equality_hash (k1 k2 : RouteKey) :
    (RouteKey.beq k1 k2 = true ↔
      k1.method = k2.method ∧ k1.path.content = k2.path.content)
    ∧ (RouteKey.beq k1 k2 = true → RouteKey.hashModel k1 = RouteKey.hashModel k2) := by
  refine ⟨RouteKey.beq_iff k1 k2, ?_⟩
  intro h
  obtain ⟨hm, hp⟩ := (RouteKey.beq_iff k1 k2).mp h
  rw [RouteKey.hashModel, RouteKey.hashModel, hm, hp]

/-- Witness for C4: a borrowed and an owned key over the same content are
equal and hash equally. -/
theorem c4_key_equality_hash_witness :
    RouteKey.beq ⟨"GET", Cow.borrowed (asciiBytes "/test")⟩
        ⟨"GET", Cow.owned (asciiBytes "/test")⟩ = true
    ∧ RouteKey.hashModel ⟨"GET", Cow.borrowed (asciiBytes "/test")⟩
        = RouteKey.hashModel ⟨"GET", Cow.owned (asciiBytes "/test")⟩ := by
  have hbeq : RouteKey.beq ⟨"GET", Cow.borrowed (asciiBytes "/test")⟩
      ⟨"GET", Cow.owned (asciiBytes "/test")⟩ = true := by decide
  exact ⟨hbeq, (c4_key_equality_hash _ _).2 hbeq⟩

/-- C6: a registration whose composed absolute path is not valid UTF-8 makes
Router::new return a construction error rather than a route table. -/
theorem c6_path_encoding_error (ctx : Bytes) (routes : List RouteInfo) (route : RouteInfo)
    (hmem : route ∈ routes)
    (hbad : isValidUtf8 (pathJoin ctx route.path_suffix) = false) :
    ∃ e, Router.new ctx routes = .error e := by
  rcases hres : Router.new ctx routes with e | r
  · exact ⟨e, rfl⟩
  · have hv := (newLoop_ok ctx routes [] r hres).1 route hmem
    rw [hv] at hbad
    exact Bool.noConfusion hbad

/-- Witness for C6: a suffix containing the invalid byte 0xFF fails
construction. -/
theorem c6_path_encoding_error_witness :
    ∃ e, Router.new (asciiBytes "/api") [⟨"GET", [0xFF], okHandler⟩] = .error e :=
  c6_path_encoding_error (asciiBytes "/api") [⟨"GET", [0xFF], okHandler⟩]
    ⟨"GET", [0xFF], okHandler⟩ (List.mem_singleton.mpr rfl) (by decide)

/-- C7: dispatch always returns a response and has no error path: the result
is either the matched handler's response, unmodified, or the synthesized 404
response. -/
theorem c7_handle_total (r : Router) (req : HttpRequest) :
    (∃ kh ∈ r.route_key_to_handler,
        RouteKey.beq kh.1 (RouteKey.fromRequest req) = true ∧ r.handle req = kh.2 req)
    ∨ r.handle req = build_status_code_response 404 := by
  rcases hget : tableGet r.route_key_to_handler (RouteKey.fromRequest req) with _ | v
  · right
    simp only [Router.handle, hget]
  · left
    obtain ⟨k0, hmem, hbeq⟩ := tableGet_some_mem _ _ v hget
    exact ⟨(k0, v), hmem, hbeq, by simp only [Router.handle, hget]⟩

/-- C8: when construction fails, Router::new returns only the error; no
route table value is produced. -/
theorem c8_no_partial_registry (ctx : Bytes) (routes : List RouteInfo) (e : RouterError)
    (herr : Router.new ctx routes = .error e) :
    ¬ ∃ r, Router.new ctx routes = .ok r := by
  rintro ⟨r, hr⟩
  rw [herr] at hr
  exact Except.noConfusion hr

/-- Witness for C8: a colliding registration list yields no router value. -/
theorem c8_no_partial_registry_witness :
    ¬ ∃ r, Router.new (asciiBytes "/a")
        [⟨"GET", asciiBytes "x", okHandler⟩, ⟨"GET", asciiBytes "x", okHandler⟩] = .ok r :=
  c8_no_partial_registry (asciiBytes "/a")
    [⟨"GET", asciiBytes "x", okHandler⟩, ⟨"GET", asciiBytes "x", okHandler⟩]
    (.collision ⟨"GET", Cow.owned (asciiBytes "/a/x")⟩) rfl

/-- C9: the empty registration list constructs successfully and the resulting
router answers 404 to every request. -/
theorem c9_empty_registration (ctx : Bytes) (req : HttpRequest) :
    ∃ r, Router.new ctx [] = .ok r
      ∧ r.handle req = build_status_code_response 404
      ∧ (r.handle req).status = 404 :=
  ⟨{ route_key_to_handler := [] }, rfl, rfl, rfl⟩

/-- C10: dispatch is deterministic in the request key: two requests with the
same method and URI path either both reach the same registered handler or
both get the 404 response. -/
theorem c10_deterministic_dispatch (r : Router) (req1 req2 : HttpRequest)
    (hm : req1.method = req2.method) (hp : req1.uriPath = req2.uriPath) :
    (∃ kh ∈ r.route_key_to_handler,
        RouteKey.beq kh.1 (RouteKey.fromRequest req1) = true
        ∧ r.handle req1 = kh.2 req1 ∧ r.handle req2 = kh.2 req2)
    ∨ (r.handle req1 = build_status_code_response 404
        ∧ r.handle req2 = build_status_code_response 404) := by
  have hkey : RouteKey.fromRequest req1 = RouteKey.fromRequest req2 := by
    rw [RouteKey.fromRequest, RouteKey.fromRequest, hm, hp]
  rcases hget : tableGet r.route_key_to_handler (RouteKey.fromRequest req1) with _ | v
  · right
    constructor
    · simp only [Router.handle, hget]
    · simp only [Router.handle, ← hkey, hget]
  · left
    obtain ⟨k0, hmem, hbeq⟩ := tableGet_some_mem _ _ v hget
    refine ⟨(k0, v), hmem, hbeq, by simp only [Router.handle, hget], ?_⟩
    simp only [Router.handle, ← hkey, hget]

/-- Witness for C10: two requests to GET "/a/x" that differ only in their
connection and request ids are dispatched to the same handler. -/
theorem c10_deterministic_dispatch_witness :
    (∃ kh ∈ (({ route_key_to_handler :=
          [(⟨"GET", Cow.owned (asciiBytes "/a/x")⟩, okHandler)] } : Router)).route_key_to_handler,
        RouteKey.beq kh.1 (RouteKey.fromRequest ⟨"GET", asciiBytes "/a/x", 1, 1⟩) = true
        ∧ Router.handle { route_key_to_handler :=
            [(⟨"GET", Cow.owned (asciiBytes "/a/x")⟩, okHandler)] }
            ⟨"GET", asciiBytes "/a/x", 1, 1⟩ = kh.2 ⟨"GET", asciiBytes "/a/x", 1, 1⟩
        ∧ Router.handle { route_key_to_handler :=
            [(⟨"GET", Cow.owned (asciiBytes "/a/x")⟩, okHandler)] }
            ⟨"GET", asciiBytes "/a/x", 2, 2⟩ = kh.2 ⟨"GET", asciiBytes "/a/x", 2, 2⟩)
    ∨ (Router.handle { route_key_to_handler :=
          [(⟨"GET", Cow.owned (asciiBytes "/a/x")⟩, okHandler)] }
          ⟨"GET", asciiBytes "/a/x", 1, 1⟩ = build_status_code_response 404
        ∧ Router.handle { route_key_to_handler :=
            [(⟨"GET", Cow.owned (asciiBytes "/a/x")⟩, okHandler)] }
            ⟨"GET", asciiBytes "/a/x", 2, 2⟩ = build_status_code_response 404) :=
  c10_deterministic_dispatch
    { route_key_to_handler := [(⟨"GET", Cow.owned (asciiBytes "/a/x")⟩, okHandler)] }
    ⟨"GET", asciiBytes "/a/x", 1, 1⟩ ⟨"GET", asciiBytes "/a/x", 2, 2⟩ rfl rfl

/-- The path-composition rule in the words of the spec sentence behind C3:
the prefix and the suffix concatenated with exactly one forward-slash
separator between them, for every prefix and suffix. -/
def specJoin (base p : Bytes) : Bytes := base ++ 47 :: p

/-- C3 counterexample: with context "/api" and suffix "/abs" (a suffix that
is an absolute path), Router::new registers the path "/abs" — PathBuf::join
replaces the whole base when the joined path is absolute — which is not
"/api" and "/abs" concatenated with one separator. -/
theorem c3_counterexample_absolute_suffix :
    (Router.new (asciiBytes "/api") [⟨"GET", asciiBytes "/abs", okHandler⟩]).map
      (fun r => r.route_key_to_handler.map (fun kh => kh.1.path.content))
      = .ok [asciiBytes "/abs"]
    ∧ asciiBytes "/abs" ≠ specJoin (asciiBytes "/api") (asciiBytes "/abs") := by
  exact ⟨rfl, by decide⟩

/-- C3 (amended): when the suffix is not an absolute path and the context
prefix is nonempty and does not end with a slash, the registered absolute
path is exactly the prefix and the suffix concatenated with one forward-slash
separator (no normalization); in particular context "/api" with suffix
"request_info" registers exactly "/api/request_info".  When the suffix is
absolute it replaces the prefix, and when the prefix is empty or ends with a
slash no separator is added. -/
theorem c3_amended_path_composition (ctx suffix : Bytes) (m : String)
    (h : RequestHandler) (habs : isAbsolute suffix = false)
    (hsep : needSep ctx = true)
    (hval : isValidUtf8 (specJoin ctx suffix) = true) :
    (Router.new ctx [⟨m, suffix, h⟩]).map
      (fun r => r.route_key_to_handler.map (fun kh => kh.1.path.content))
      = .ok [specJoin ctx suffix] := by
  have hjoin : pathJoin ctx suffix = specJoin ctx suffix := by
    rw [pathJoin, specJoin, habs, hsep]
    simp
  show (Router.newLoop ctx [⟨m, suffix, h⟩] []).map _ = _
  rw [newLoop_cons]
  have hpath : pathJoin ctx (RouteInfo.path_suffix ⟨m, suffix, h⟩) = specJoin ctx suffix := by
    exact hjoin
  rw [hpath, if_pos hval]
  simp [composedKey, tableInsert, Router.newLoop, Except.map, Cow.content, hpath]

/-- Witness for C3 (amended): context "/api" with suffix "request_info"
registers exactly the path "/api/request_info". -/
theorem c3_amended_path_composition_witness :
    (Router.new (asciiBytes "/api") [⟨"GET", asciiBytes "request_info", okHandler⟩]).map
      (fun r => r.route_key_to_handler.map (fun kh => kh.1.path.content))
      = .ok [asciiBytes "/api/request_info"] := by
  have h := c3_amended_path_composition (asciiBytes "/api") (asciiBytes "request_info")
    "GET" okHandler (by decide) (by decide) (by decide)
  have h2 : specJoin (asciiBytes "/api") (asciiBytes "request_info")
      = asciiBytes "/api/request_info" := by decide
  rw [h, h2]

/-- C5: a router whose table holds exactly the key (GET, "/api/request_info")
answers 404 both to GET "/api/request_info/" (trailing slash: no partial or
prefix matching) and to PUT "/api/request_info" (no method-not-allowed
distinction). -/
theorem c5_no_fallback (r : Router)
    (htable : r.route_key_to_handler.map (fun kh => (kh.1.method, kh.1.path.content))
      = [("GET", asciiBytes "/api/request_info")])
    (cid1 rid1 cid2 rid2 : Nat) :
    (r.handle ⟨"GET", asciiBytes "/api/request_info/", cid1, rid1⟩).status = 404
    ∧ (r.handle ⟨"PUT", asciiBytes "/api/request_info", cid2, rid2⟩).status = 404 := by
  rcases r with ⟨t⟩
  rcases t with _ | ⟨⟨⟨km, kp⟩, kv⟩, tl⟩
  · simp at htable
  · rcases kp with s | s <;>
    · simp only [List.map_cons, List.cons.injEq, Prod.mk.injEq, List.map_eq_nil_iff,
        Cow.content] at htable
      obtain ⟨⟨hm, hp⟩, htl⟩ := htable
      subst hm
      subst hp
      subst htl
      exact ⟨rfl, rfl⟩

/-- Witness for C5: the concrete single-entry router answers 404 to the
trailing-slash GET and to the PUT. -/
theorem c5_no_fallback_witness :
    (Router.handle
        { route_key_to_handler :=
            [(⟨"GET", Cow.owned (asciiBytes "/api/request_info")⟩, okHandler)] }
        ⟨"GET", asciiBytes "/api/request_info/", 0, 0⟩).status = 404
    ∧ (Router.handle
        { route_key_to_handler :=
            [(⟨"GET", Cow.owned (asciiBytes "/api/request_info")⟩, okHandler)] }
        ⟨"PUT", asciiBytes "/api/request_info", 0, 0⟩).status = 404 :=
  c5_no_fallback
    { route_key_to_handler :=
        [(⟨"GET", Cow.owned (asciiBytes "/api/request_info")⟩, okHandler)] }
    rfl 0 0 0 0

end RustHyperNotcgi
